import Mathlib

/-!
Shallow embedding of the update/installer core of `MAD.py` (the MAD
repository): the download/extract workers, the sequential task
controller, the history ledger, the release-URL resolver with its
match-at-start pattern semantics, and the installation orchestration in
`MainWindow`.  Machine-level effects (network reads, zip entries, file
writes) are made explicit as parameters and result records; progress
signal emissions become lists of the emitted values, in order.
-/

namespace MAD

/-- A task dict built by `MainWindow._start_installation`:
`{"type": "download", "url": …, "destination": …}` or
`{"type": "extract", "archive": …, "output": …}`. -/
inductive Task
  | download (url : String) (destination : String)
  | extract (archive : String) (output : String)
  deriving DecidableEq, Repr

/-- Result of one `DownloadWorker.run` execution.  `emits` is the list of
values sent on the `progress` signal, in order. -/
structure DownloadRun where
  emits : List Nat
  errorPrinted : Bool
  finishedEmitted : Bool
  deriving DecidableEq, Repr

/-- Progress values emitted by the chunk loop of `DownloadWorker.run`:
for each non-empty chunk, `downloaded` grows by the chunk length and
`int((downloaded * 100) / total_size)` is emitted when `total_size > 0`
(Python `int(x / y)` on non-negative ints is floor division, i.e. `Nat`
division).  Empty chunks are skipped by `if chunk:`. -/
def downloadEmits (totalSize : Nat) : Nat → List Nat → List Nat
  | _, [] => []
  | downloaded, c :: cs =>
    if c = 0 then downloadEmits totalSize downloaded cs
    else if totalSize > 0 then
      ((downloaded + c) * 100) / totalSize :: downloadEmits totalSize (downloaded + c) cs
    else downloadEmits totalSize (downloaded + c) cs

/-- `DownloadWorker.run`: `totalSize` is `int(response.headers.get("Content-Length", 0))`;
`chunks` are the chunk sizes the stream delivered before the try block
ended; `ok` is whether the try block ran to completion without raising
(`raise_for_status`, network and file errors all land in the `except`
branch, which only prints).  The `finally` block always emits `finished`. -/
def DownloadWorker.run (totalSize : Nat) (chunks : List Nat) (ok : Bool) : DownloadRun :=
  { emits := downloadEmits totalSize 0 chunks
    errorPrinted := !ok
    finishedEmitted := true }

/-- Result of one `ExtractWorker.run` execution. -/
structure ExtractRun where
  emits : List Nat
  extracted : Nat
  errorPrinted : Bool
  archiveDeleted : Bool
  finishedEmitted : Bool
  deriving DecidableEq, Repr

/-- Progress values emitted by the entry loop of `ExtractWorker.run` when
`count` entries are extracted out of `total`:
`int(((i + 1) * 100) / total)` after each entry `i`.  The division is
evaluated only inside the loop body, once per extracted entry. -/
def extractEmits (total count : Nat) : List Nat :=
  (List.range count).map (fun i => ((i + 1) * 100) / total)

/-- `ExtractWorker.run`: `numEntries` is `len(zip_ref.infolist())`;
`archiveOnDisk` is whether the archive file exists; `openOk` is whether
`ZipFile(self.archive, "r")` opens it as a zip; `failAt = some k` means
`zip_ref.extract` raises on the `k`-th entry (0-based).  Any raise in the
try block lands in the `except` branch, which only prints.  The
`finally` block runs `self.archive.unlink()` and then emits `finished`:
when the archive file exists the unlink succeeds and `finished` is
emitted whatever happened in the try block; when it does not exist
(`ZipFile` already raised `FileNotFoundError`), `unlink` raises too and
`finished` is never emitted. -/
def ExtractWorker.run (numEntries : Nat) (archiveOnDisk openOk : Bool)
    (failAt : Option Nat) : ExtractRun :=
  if archiveOnDisk then
    if openOk then
      match failAt with
      | some k =>
        if k < numEntries then
          { emits := extractEmits numEntries k
            extracted := k
            errorPrinted := true
            archiveDeleted := true
            finishedEmitted := true }
        else
          { emits := extractEmits numEntries numEntries
            extracted := numEntries
            errorPrinted := false
            archiveDeleted := true
            finishedEmitted := true }
      | none =>
        { emits := extractEmits numEntries numEntries
          extracted := numEntries
          errorPrinted := false
          archiveDeleted := true
          finishedEmitted := true }
    else
      { emits := []
        extracted := 0
        errorPrinted := true
        archiveDeleted := true
        finishedEmitted := true }
  else
    { emits := []
      extracted := 0
      errorPrinted := true
      archiveDeleted := false
      finishedEmitted := false }

/-- Whether the worker that `TaskController._execute_next` starts for task
`t` eventually emits its `finished` signal.  `outcome t` tells whether
that worker's try block succeeds, `archiveOn t` whether an extract
task's archive file is on disk when its `finally` block runs.  The value
is read off the worker models; the entry/chunk counts are irrelevant to
the `finishedEmitted` field. -/
def workerEmitsFinished (outcome archiveOn : Task → Bool) (t : Task) : Bool :=
  match t with
  | Task.download _ _ => (DownloadWorker.run 0 [] (outcome t)).finishedEmitted
  | Task.extract _ _ => (ExtractWorker.run 0 (archiveOn t) (outcome t) none).finishedEmitted

/-- `TaskController` execution from the current index: `_execute_next`
emits `finished` when the index passes the end; otherwise it starts the
worker for the current task, and `_on_worker_finished` (connected to the
worker's `finished` signal) advances the index and recurses.  Returns the
tasks whose workers were started, and whether the controller's own
`finished` signal was emitted.  A worker that never signals `finished`
leaves the controller stalled (no further task, no `finished`). -/
def TaskController.runFrom (outcome archiveOn : Task → Bool) : List Task → List Task × Bool
  | [] => ([], true)
  | t :: rest =>
    if workerEmitsFinished outcome archiveOn t then
      let r := TaskController.runFrom outcome archiveOn rest
      (t :: r.1, r.2)
    else ([t], false)

/-! ### History ledger (`HistoryManager`)

`HistoryManager.data` is a JSON object: a finite string-to-string
mapping.  We embed it as an association list looked up by key; Python
dict keys are unique, which theorems assume as `Nodup` of the keys where
it matters. -/

/-- Dictionary lookup `data[name]` / `name in data`. -/
def lookup (name : String) : List (String × String) → Option String
  | [] => none
  | (k, v) :: rest => if k = name then some v else lookup name rest

/-- Dictionary assignment `data[name] = url`: replace the binding if the
key is present, append otherwise. -/
def setKey (name url : String) : List (String × String) → List (String × String)
  | [] => [(name, url)]
  | (k, v) :: rest => if k = name then (k, url) :: rest else (k, v) :: setKey name url rest

/-- `HistoryManager.save` writes the mapping with
`self.file.open("w")` followed by `json.dump`: opening with mode `"w"`
truncates the file in place, then the serialized bytes are written.  The
observable on-disk contents of the ledger file during one save, in
order: the old content, the empty content right after the truncating
open, then the new serialized content.  (Intermediate partial writes of
`json.dump` would add further states between the last two; the truncated
state alone is enough to settle atomicity.) -/
def HistoryManager.saveStates (oldContent newContent : String) : List String :=
  [oldContent, "", newContent]

/-- `HistoryManager.save` with the possibility that the storage cannot be
written: if `openOk` is false, `self.file.open("w")` raises and the
exception propagates to the caller (no write happens, `none`); otherwise
the truncate-then-write state sequence results. -/
def HistoryManager.save (openOk : Bool) (oldContent newContent : String) :
    Option (List String) :=
  if openOk then some (HistoryManager.saveStates oldContent newContent) else none

/-- An atomic save never lets a reader of the file observe anything but
the old or the new content. -/
def atomicSave (states : List String) (oldContent newContent : String) : Prop :=
  ∀ s ∈ states, s = oldContent ∨ s = newContent

/-! ### Plan building (`MainWindow._start_installation`) -/

/-- The temporary archive path for a module:
`Path(tempfile.gettempdir()) / f"limbus_{name.replace('/', '_')}.zip"`.
Python's single-character `str.replace` substitutes every occurrence. -/
def destPath (tmpdir name : String) : String :=
  tmpdir ++ "/limbus_" ++ String.mk (name.data.map (fun c => if c = '/' then '_' else c)) ++ ".zip"

/-- The planning loop of `MainWindow._start_installation` over
`self.api_mapping.items()`.  `resolve` is `self._get_download_url`
(returning `none` both when no asset matches and when the request
raised).  For each `(name, pattern)`: on `none`, skip; if
`name in self.history.data and self.history.data[name] == url`, skip
("already current"); otherwise extend `tasks` with the download/extract
pair and stage `self.history.data[name] = url`.  Returns the task list
and the staged in-memory ledger. -/
def buildPlan (resolve : String → String → Option String) (tmpdir gamePath : String)
    (hist : List (String × String)) :
    List (String × String) → List Task × List (String × String)
  | [] => ([], hist)
  | (name, pattern) :: rest =>
    match resolve name pattern with
    | none => buildPlan resolve tmpdir gamePath hist rest
    | some url =>
      if lookup name hist = some url then
        buildPlan resolve tmpdir gamePath hist rest
      else
        let dest := destPath tmpdir name
        let r := buildPlan resolve tmpdir gamePath (setKey name url hist) rest
        (Task.download url dest :: Task.extract dest gamePath :: r.1, r.2)

/-! ### Orchestration (`MainWindow`) -/

/-- The observable state the installation entry points act on: the UI log
list, the in-memory ledger `self.history.data`, the persisted ledger
file content, the game-directory entries removed by
`_clean_installation`, and the tasks whose workers were started. -/
structure AppState where
  logs : List String
  historyData : List (String × String)
  diskLedger : List (String × String)
  removedPaths : List String
  startedTasks : List Task
  deriving DecidableEq, Repr

/-- The fixed removal list of `MainWindow._clean_installation`. -/
def cleanTargets : List String :=
  ["BepInEx", "dotnet", "AutoLLC.history", "doorstop_config.ini", "winhttp.dll",
   ".doorstop_version", "changelog.txt", "Latest(框架日志).log", "Player(遊戲日志).log"]

/-- `MainWindow._clean_installation`: with an empty `history.data`, log
`未找到漢化模組` and return `False`; otherwise remove the fixed targets,
log each, clear `history.data`, and return `True`. -/
def cleanInstallation (s : AppState) : Bool × AppState :=
  if s.historyData.isEmpty then
    (false, { s with logs := s.logs ++ ["未找到漢化模組"] })
  else
    (true,
      { s with
        logs := s.logs ++ cleanTargets.map (fun p => "已移除: " ++ p) ++ ["漢化模組已移除"]
        historyData := []
        removedPaths := s.removedPaths ++ cleanTargets })

/-- The environment one run of the installer observes: the `tasklist`
output, the resolver's answers, the configured `api_mapping`, the temp
and game directories, and each task's try-block outcome. -/
structure RunEnv where
  tasklist : String
  resolve : String → String → Option String
  apiMapping : List (String × String)
  tmpdir : String
  gamePath : String
  outcome : Task → Bool
  archiveOn : Task → Bool

/-- `MainWindow._start_installation` followed by the controller run and
`_on_install_finished`: optionally clean, build the plan (staging URL
changes into `history.data` as it goes), and if the plan is non-empty
run the `TaskController`; `_on_install_finished` — connected to the
controller's `finished` signal — calls `self.history.save()`, persisting
the staged mapping.  With an empty plan the controller is never created
and the ledger file is untouched. -/
def installRun (env : RunEnv) (clean : Bool) (s : AppState) : AppState :=
  let s1 :=
    if clean then
      let r := cleanInstallation s
      if r.1 then { r.2 with logs := r.2.logs ++ ["舊模組已移除"] } else r.2
    else s
  let p := buildPlan env.resolve env.tmpdir env.gamePath s1.historyData env.apiMapping
  if p.1.isEmpty then { s1 with historyData := p.2 }
  else
    let c := TaskController.runFrom env.outcome env.archiveOn p.1
    { s1 with
      historyData := p.2
      startedTasks := s1.startedTasks ++ c.1
      diskLedger := if c.2 then p.2 else s1.diskLedger }

/-- Whether `needle` occurs at the very front of `hay`. -/
def startsWithChars : List Char → List Char → Bool
  | [], _ => true
  | _ :: _, [] => false
  | a :: as, b :: bs => a = b && startsWithChars as bs

/-- Python's substring test `needle in hay`: the needle occurs at the
front of some suffix of the haystack. -/
def containsChars (needle : List Char) : List Char → Bool
  | [] => startsWithChars needle []
  | b :: bs => startsWithChars needle (b :: bs) || containsChars needle bs

/-- Whether `"LimbusCompany.exe" in popen("tasklist").read()`. -/
def gameRunning (tasklist : String) : Bool :=
  containsChars "LimbusCompany.exe".data tasklist.data

/-- The `require_game_stoping` decorator: if the game process shows up in
the `tasklist` output, only `self._add_log(...)` runs and the wrapped
method is skipped; otherwise the method runs. -/
def requireGameStoping (tasklist : String) (method : AppState → AppState)
    (s : AppState) : AppState :=
  if gameRunning tasklist then
    { s with logs := s.logs ++ ["偵測到遊戲正在運行,請先關閉遊戲再進行操作!"] }
  else method s

/-- `MainWindow.normal_install` (`自動更新`). -/
def normal_install (env : RunEnv) (s : AppState) : AppState :=
  requireGameStoping env.tasklist (installRun env false) s

/-- `MainWindow.re_install` (`重新安裝`). -/
def re_install (env : RunEnv) (s : AppState) : AppState :=
  requireGameStoping env.tasklist (installRun env true) s

/-- `MainWindow.remove_module` (`移除漢化`). -/
def remove_module (env : RunEnv) (s : AppState) : AppState :=
  requireGameStoping env.tasklist (fun s => (cleanInstallation s).2) s

/-! ### Release resolution (`MainWindow._get_download_url`)

The patterns in `api_mapping` use only a small regular-expression
fragment: literal characters, `\`-escapes, `.` (any character) and the
postfix `*`.  We embed that fragment and Python's `re.match` semantics:
the match is anchored at the start of the subject and may end anywhere
before the end (prefix match, not full match, not search). -/

/-- A pattern atom: a literal character, or `.` matching any character. -/
inductive Atom
  | lit (c : Char)
  | dot
  deriving DecidableEq, Repr

/-- Parse a pattern of the fragment into its sequence of
(atom, starred?) items.  A dangling `\` or a leading `*` is outside the
fragment (`none`). -/
def parsePattern : List Char → Option (List (Atom × Bool))
  | [] => some []
  | ['\\'] => none
  | '\\' :: c :: '*' :: rest => (parsePattern rest).map (fun ps => (Atom.lit c, true) :: ps)
  | '\\' :: c :: rest => (parsePattern rest).map (fun ps => (Atom.lit c, false) :: ps)
  | '*' :: _ => none
  | '.' :: '*' :: rest => (parsePattern rest).map (fun ps => (Atom.dot, true) :: ps)
  | '.' :: rest => (parsePattern rest).map (fun ps => (Atom.dot, false) :: ps)
  | c :: '*' :: rest => (parsePattern rest).map (fun ps => (Atom.lit c, true) :: ps)
  | c :: rest => (parsePattern rest).map (fun ps => (Atom.lit c, false) :: ps)

/-- Whether an atom matches one character. -/
def atomMatches : Atom → Char → Bool
  | Atom.lit c, x => x = c
  | Atom.dot, _ => true

/-- The suffixes of `s` reachable by consuming zero or more characters
that each match atom `a` — the candidate rests after a starred atom. -/
def starDrops (a : Atom) : List Char → List (List Char)
  | [] => [[]]
  | c :: cs => (c :: cs) :: (if atomMatches a c then starDrops a cs else [])

/-- Match-at-start semantics: does some prefix of the subject match the
whole pattern?  A starred atom matches zero or more characters (any
split is tried, so greediness is irrelevant to truthiness). -/
def reMatch : List (Atom × Bool) → List Char → Bool
  | [], _ => true
  | (_, false) :: _, [] => false
  | (a, false) :: ps, c :: cs => atomMatches a c && reMatch ps cs
  | (a, true) :: ps, s => (starDrops a s).any (fun rest => reMatch ps rest)

/-- Truthiness of `rematch(pattern, url)` (`re.match`) for the fragment:
anchored at the start of the string, free at the end.  Patterns outside
the fragment yield `false` (all of this program's patterns parse). -/
def pyMatch (pattern s : String) : Bool :=
  match parsePattern pattern.data with
  | none => false
  | some ps => reMatch ps s.data

/-- The asset scan of `MainWindow._get_download_url`: `releases` is the
decoded `response.json()`, each release carrying its assets'
`browser_download_url`s in order; `response.json()[0]` is the most
recent release, whose assets are scanned in order and the first URL with
`rematch(pattern, url)` truthy is returned.  An empty release list makes
the subscript raise, landing in the except branch: `None`. -/
def getDownloadUrl (pattern : String) (releases : List (List String)) : Option String :=
  match releases with
  | [] => none
  | assets :: _ => assets.find? (fun url => pyMatch pattern url)

/-- Shape invariant of a task list: alternating download/extract pairs in
which each extract consumes exactly its download's destination and
outputs to the game directory. -/
def pairedWith (gamePath : String) : List Task → Bool
  | [] => true
  | Task.download _ d :: Task.extract a o :: rest =>
      a = d && o = gamePath && pairedWith gamePath rest
  | _ => false

/-! ### Helper lemmas -/

lemma extractRun_finished_of_onDisk (n : Nat) (openOk : Bool) (failAt : Option Nat) :
    (ExtractWorker.run n true openOk failAt).finishedEmitted = true := by
  unfold ExtractWorker.run
  cases openOk with
  | false => rfl
  | true =>
    cases failAt with
    | none => rfl
    | some k =>
      by_cases hk : k < n
      · simp [hk]
      · simp [hk]

lemma extractRun_deleted_of_onDisk (n : Nat) (openOk : Bool) (failAt : Option Nat) :
    (ExtractWorker.run n true openOk failAt).archiveDeleted = true := by
  unfold ExtractWorker.run
  cases openOk with
  | false => rfl
  | true =>
    cases failAt with
    | none => rfl
    | some k =>
      by_cases hk : k < n
      · simp [hk]
      · simp [hk]

lemma workerFinished_of_archiveOn (outcome archiveOn : Task → Bool)
    (h : ∀ t, archiveOn t = true) (t : Task) :
    workerEmitsFinished outcome archiveOn t = true := by
  cases t with
  | download u d => rfl
  | extract a o =>
    unfold workerEmitsFinished
    rw [h (Task.extract a o)]
    exact extractRun_finished_of_onDisk 0 (outcome (Task.extract a o)) none

lemma runFrom_all (outcome archiveOn : Task → Bool) (h : ∀ t, archiveOn t = true) :
    ∀ tasks, TaskController.runFrom outcome archiveOn tasks = (tasks, true) := by
  intro tasks
  induction tasks with
  | nil => rfl
  | cons t rest ih =>
    unfold TaskController.runFrom
    rw [workerFinished_of_archiveOn outcome archiveOn h t, ih]
    simp

lemma lookup_setKey_self (n u : String) :
    ∀ h : List (String × String), lookup n (setKey n u h) = some u := by
  intro h
  induction h with
  | nil => simp [setKey, lookup]
  | cons kv rest ih =>
    obtain ⟨k, v⟩ := kv
    by_cases hk : k = n
    · subst hk; simp [setKey, lookup]
    · simp [setKey, lookup, hk, ih]

lemma lookup_setKey_ne {k n : String} (u : String) (hk : k ≠ n) :
    ∀ h : List (String × String), lookup k (setKey n u h) = lookup k h := by
  intro h
  induction h with
  | nil => simp [setKey, lookup, Ne.symm hk]
  | cons kv rest ih =>
    obtain ⟨k₀, v⟩ := kv
    by_cases h₀ : k₀ = n
    · subst h₀
      simp [setKey, lookup, Ne.symm hk]
    · by_cases hk₀ : k₀ = k
      · subst hk₀; simp [setKey, lookup, h₀]
      · simp [setKey, lookup, h₀, hk₀, ih]

lemma buildPlan_lookup_notmem (r : String → String → Option String) (t g : String)
    (n : String) :
    ∀ (m : List (String × String)) (h : List (String × String)),
      n ∉ m.map Prod.fst → lookup n (buildPlan r t g h m).2 = lookup n h := by
  intro m
  induction m with
  | nil => intro h _; rfl
  | cons np rest ih =>
    intro h hn
    obtain ⟨name, pat⟩ := np
    simp only [List.map_cons, List.mem_cons, not_or] at hn
    obtain ⟨hne, hrest⟩ := hn
    cases hres : r name pat with
    | none => simpa [buildPlan, hres] using ih h hrest
    | some url =>
      by_cases hcur : lookup name h = some url
      · simpa [buildPlan, hres, hcur] using ih h hrest
      · have step := ih (setKey name url h) hrest
        rw [lookup_setKey_ne url hne] at step
        simpa [buildPlan, hres, hcur] using step

lemma buildPlan_lookup_mem (r : String → String → Option String) (t g : String) :
    ∀ (m : List (String × String)) (h : List (String × String)) (n p u : String),
      (m.map Prod.fst).Nodup → (n, p) ∈ m → r n p = some u →
      lookup n (buildPlan r t g h m).2 = some u := by
  intro m
  induction m with
  | nil => intro h n p u _ hmem; simp at hmem
  | cons np rest ih =>
    intro h n p u hnd hmem hres
    obtain ⟨name, pat⟩ := np
    simp only [List.map_cons, List.nodup_cons] at hnd
    obtain ⟨hnotin, hndrest⟩ := hnd
    rcases List.mem_cons.mp hmem with heq | hmemrest
    · injection heq with h1 h2
      subst h1; subst h2
      by_cases hcur : lookup n h = some u
      · have := buildPlan_lookup_notmem r t g n rest h hnotin
        simp [buildPlan, hres, hcur, this]
      · have := buildPlan_lookup_notmem r t g n rest (setKey n u h) hnotin
        rw [lookup_setKey_self n u h] at this
        simpa [buildPlan, hres, hcur] using this
    · have hn : n ∈ rest.map Prod.fst :=
        List.mem_map.mpr ⟨(n, p), hmemrest, rfl⟩
      cases hres₀ : r name pat with
      | none => simpa [buildPlan, hres₀] using ih h n p u hndrest hmemrest hres
      | some url =>
        by_cases hcur : lookup name h = some url
        · simpa [buildPlan, hres₀, hcur] using ih h n p u hndrest hmemrest hres
        · simpa [buildPlan, hres₀, hcur] using
            ih (setKey name url h) n p u hndrest hmemrest hres

lemma buildPlan_skip (r : String → String → Option String) (t g : String) :
    ∀ (m h : List (String × String)),
      (∀ np ∈ m, ∀ u, r np.1 np.2 = some u → lookup np.1 h = some u) →
      buildPlan r t g h m = ([], h) := by
  intro m
  induction m with
  | nil => intro h _; rfl
  | cons np rest ih =>
    intro h hm
    obtain ⟨name, pat⟩ := np
    cases hres : r name pat with
    | none =>
      simpa [buildPlan, hres] using ih h (fun q hq u hu => hm q (List.mem_cons_of_mem _ hq) u hu)
    | some url =>
      have hcur : lookup name h = some url :=
        hm (name, pat) (List.mem_cons_self (name, pat) rest) url hres
      simpa [buildPlan, hres, hcur] using
        ih h (fun q hq u hu => hm q (List.mem_cons_of_mem _ hq) u hu)

lemma installRun_historyData (env : RunEnv) (s : AppState) :
    (installRun env false s).historyData =
      (buildPlan env.resolve env.tmpdir env.gamePath s.historyData env.apiMapping).2 := by
  unfold installRun
  split
  · rename_i hcontra; simp at hcontra
  · dsimp only
    split <;> rfl

lemma buildPlan_paired (r : String → String → Option String) (t g : String) :
    ∀ (m : List (String × String)) (h : List (String × String)),
      pairedWith g (buildPlan r t g h m).1 = true := by
  intro m
  induction m with
  | nil => intro h; rfl
  | cons np rest ih =>
    intro h
    obtain ⟨name, pat⟩ := np
    cases hres : r name pat with
    | none => simpa [buildPlan, hres] using ih h
    | some url =>
      by_cases hcur : lookup name h = some url
      · simpa [buildPlan, hres, hcur] using ih h
      · simpa [buildPlan, hres, hcur, pairedWith] using ih (setKey name url h)

lemma downloadEmits_lb (T : Nat) :
    ∀ (cs : List Nat) (d x : Nat), x ∈ downloadEmits T d cs → d * 100 / T ≤ x := by
  intro cs
  induction cs with
  | nil => intro d x hx; simp [downloadEmits] at hx
  | cons c rest ih =>
    intro d x hx
    by_cases hc : c = 0
    · subst hc
      simp only [downloadEmits, if_pos rfl] at hx
      exact ih d x hx
    · have hmono : d * 100 / T ≤ (d + c) * 100 / T :=
        Nat.div_le_div_right (Nat.mul_le_mul_right 100 (Nat.le_add_right d c))
      by_cases hT : 0 < T
      · simp only [downloadEmits, if_neg hc, if_pos hT, List.mem_cons] at hx
        rcases hx with rfl | hx
        · exact hmono
        · exact le_trans hmono (ih (d + c) x hx)
      · simp only [downloadEmits, if_neg hc, if_neg hT] at hx
        exact le_trans hmono (ih (d + c) x hx)

lemma downloadEmits_sorted (T : Nat) :
    ∀ (cs : List Nat) (d : Nat), List.Pairwise (· ≤ ·) (downloadEmits T d cs) := by
  intro cs
  induction cs with
  | nil => intro d; simp [downloadEmits]
  | cons c rest ih =>
    intro d
    by_cases hc : c = 0
    · subst hc; simpa only [downloadEmits, if_pos rfl] using ih d
    · by_cases hT : 0 < T
      · simp only [downloadEmits, if_neg hc, if_pos hT, List.pairwise_cons]
        exact ⟨fun x hx => downloadEmits_lb T rest (d + c) x hx, ih (d + c)⟩
      · simpa only [downloadEmits, if_neg hc, if_neg hT] using ih (d + c)

lemma downloadEmits_zeroTotal : ∀ (cs : List Nat) (d : Nat), downloadEmits 0 d cs = [] := by
  intro cs
  induction cs with
  | nil => intro d; rfl
  | cons c rest ih =>
    intro d
    by_cases hc : c = 0
    · subst hc; simpa only [downloadEmits, if_pos rfl] using ih d
    · simpa only [downloadEmits, if_neg hc, Nat.lt_irrefl, if_neg (by omega : ¬ (0:Nat) < 0)]
        using ih (d + c)

lemma downloadEmits_of_sum_zero (T : Nat) :
    ∀ (cs : List Nat), cs.sum = 0 → ∀ d, downloadEmits T d cs = [] := by
  intro cs
  induction cs with
  | nil => intro _ d; rfl
  | cons c rest ih =>
    intro hsum d
    simp only [List.sum_cons] at hsum
    have hc : c = 0 := by omega
    have hrest : rest.sum = 0 := by omega
    subst hc
    simpa only [downloadEmits, if_pos rfl] using ih hrest d

lemma downloadEmits_ne_nil (T : Nat) (hT : 0 < T) :
    ∀ (cs : List Nat), 0 < cs.sum → ∀ d, downloadEmits T d cs ≠ [] := by
  intro cs
  induction cs with
  | nil => intro h; simp at h
  | cons c rest ih =>
    intro hsum d
    by_cases hc : c = 0
    · subst hc
      simp only [List.sum_cons, Nat.zero_add] at hsum
      simpa only [downloadEmits, if_pos rfl] using ih hsum d
    · simp [downloadEmits, hc, hT]

lemma downloadEmits_last (T : Nat) (hT : 0 < T) :
    ∀ (cs : List Nat) (d : Nat), d + cs.sum = T → 0 < cs.sum →
      (downloadEmits T d cs).getLast? = some 100 := by
  intro cs
  induction cs with
  | nil => intro d _ h0; simp at h0
  | cons c rest ih =>
    intro d hsum hpos
    simp only [List.sum_cons] at hsum hpos
    by_cases hc : c = 0
    · subst hc
      simp only [downloadEmits, if_pos rfl]
      exact ih d (by omega) (by omega)
    · simp only [downloadEmits, if_neg hc, if_pos hT]
      by_cases hr : rest.sum = 0
      · rw [downloadEmits_of_sum_zero T rest hr (d + c)]
        have hdc : d + c = T := by omega
        rw [hdc]
        simp [Nat.mul_div_cancel_left 100 hT]
      · have hrpos : 0 < rest.sum := Nat.pos_of_ne_zero hr
        have hrec := ih (d + c) (by omega) hrpos
        have hne := downloadEmits_ne_nil T hT rest hrpos (d + c)
        obtain ⟨y, l', hl⟩ := List.exists_cons_of_ne_nil hne
        rw [hl] at hrec ⊢
        simpa [List.getLast?_cons_cons] using hrec

lemma extractEmits_sorted (total count : Nat) :
    List.Pairwise (· ≤ ·) (extractEmits total count) := by
  unfold extractEmits
  exact List.Pairwise.map _ (fun a b hab => Nat.div_le_div_right (by omega))
    (List.pairwise_lt_range count)

lemma extractEmits_last (n : Nat) (hn : 0 < n) : (extractEmits n n).getLast? = some 100 := by
  obtain ⟨m, rfl⟩ : ∃ m, n = m + 1 := ⟨n - 1, by omega⟩
  unfold extractEmits
  rw [List.range_succ, List.map_append]
  simp [Nat.mul_div_cancel_left 100 hn]

/-! ### Concrete fixtures for witnesses and counterexamples -/

/-- Empty initial application state: no logs, empty in-memory ledger and
ledger file, nothing removed, no tasks started. -/
def state0 : AppState := ⟨[], [], [], [], []⟩

/-- Resolver fixture: every module resolves to one fixed URL. -/
def resolveM : String → String → Option String := fun _ _ => some "https://x/U1.zip"

/-- Outcome fixture: every download's try block fails mid-stream, every
extract's try block succeeds. -/
def failDownloads : Task → Bool
  | Task.download _ _ => false
  | Task.extract _ _ => true

/-- Environment fixture: one module `m`, downloads failing, archives on
disk when the extract workers clean up. -/
def envFailingDownload : RunEnv :=
  ⟨"", resolveM, [("m", "p")], "/tmp", "/game", failDownloads, fun _ => true⟩

/-- Environment fixture: two modules, every task succeeding. -/
def envTwoModulesOk : RunEnv :=
  ⟨"", fun n _ => some ("https://x/" ++ n ++ ".zip"), [("A", "pa"), ("B", "pb")],
   "/tmp", "/game", fun _ => true, fun _ => true⟩

/-- Environment fixture: the `tasklist` output shows the game process. -/
def envGameRunning : RunEnv :=
  ⟨"System Idle Process\nLimbusCompany.exe    4242 Console\nsteam.exe", resolveM,
   [("m", "p")], "/tmp", "/game", fun _ => true, fun _ => true⟩

/-! ### Claim theorems -/

/-- Claim C1, counterexample: one module resolves to a new URL, its
download task fails, yet after the run the ledger file holds the staged
URL instead of its pre-run (empty) content — the run is not
all-or-nothing.  The staged change for a module whose download/extract
pair did not succeed is persisted. -/
theorem ledger_persisted_after_failed_run :
    envFailingDownload.outcome
        (Task.download "https://x/U1.zip" (destPath "/tmp" "m")) = false ∧
    (installRun envFailingDownload false state0).startedTasks =
      [Task.download "https://x/U1.zip" (destPath "/tmp" "m"),
       Task.extract (destPath "/tmp" "m") "/game"] ∧
    state0.diskLedger = [] ∧
    (installRun envFailingDownload false state0).diskLedger = [("m", "https://x/U1.zip")] := by
  decide

/-- Claim C1, amended: for every run of the update operation with a
non-empty plan (and the extract workers' archive files on disk, so their
`finally` blocks do not raise), the ledger persisted after the run is
the staged in-memory mapping — whether or not any task failed.  Task
failures are invisible to the controller, `_on_install_finished` always
runs, and `history.save()` persists every staged URL. -/
theorem ledger_save_unconditional (env : RunEnv) (s : AppState)
    (harch : ∀ t, env.archiveOn t = true)
    (hplan : (buildPlan env.resolve env.tmpdir env.gamePath s.historyData env.apiMapping).1 ≠ []) :
    (installRun env false s).diskLedger =
      (buildPlan env.resolve env.tmpdir env.gamePath s.historyData env.apiMapping).2 := by
  unfold installRun
  split
  · rename_i hcontra; simp at hcontra
  · dsimp only
    split
    · rename_i hemp
      exact absurd (by simpa using hemp) hplan
    · rw [runFrom_all env.outcome env.archiveOn harch]
      rfl

/-- Claim C1, witness for the amended theorem at the failing-download
environment. -/
theorem ledger_save_unconditional_witness :
    ((∀ t, envFailingDownload.archiveOn t = true) ∧
      (buildPlan envFailingDownload.resolve envFailingDownload.tmpdir
          envFailingDownload.gamePath state0.historyData envFailingDownload.apiMapping).1 ≠ []) ∧
    (installRun envFailingDownload false state0).diskLedger =
      (buildPlan envFailingDownload.resolve envFailingDownload.tmpdir
          envFailingDownload.gamePath state0.historyData envFailingDownload.apiMapping).2 :=
  ⟨⟨fun _ => rfl, by decide⟩,
    ledger_save_unconditional envFailingDownload state0 (fun _ => rfl) (by decide)⟩

/-- Claim C2, counterexample: a two-task queue whose first task (a
download) fails.  The failed worker still emits `finished` from its
`finally` block, so the controller starts the remaining extract task and
ends with its normal `finished` signal — it does not halt, and no
failure signal exists to be emitted. -/
theorem controller_continues_past_failure_example :
    failDownloads (Task.download "https://x/U1.zip" "/tmp/a.zip") = false ∧
    TaskController.runFrom failDownloads (fun _ => true)
        [Task.download "https://x/U1.zip" "/tmp/a.zip", Task.extract "/tmp/a.zip" "/game"]
      = ([Task.download "https://x/U1.zip" "/tmp/a.zip", Task.extract "/tmp/a.zip" "/game"],
         true) := by
  decide

/-- Claim C2, amended: whatever tasks fail, every worker whose `finally`
block completes (archives on disk) emits the same `finished` signal as
on success; the controller therefore starts every queued task in order
and emits its single terminal `finished` signal — skip-and-continue, not
all-or-nothing halt, and no `Aborted` state or failure signal exists. -/
theorem controller_runs_all_tasks (outcome archiveOn : Task → Bool)
    (harch : ∀ t, archiveOn t = true) (tasks : List Task) :
    TaskController.runFrom outcome archiveOn tasks = (tasks, true) :=
  runFrom_all outcome archiveOn harch tasks

/-- Claim C2, witness for the amended theorem on a concrete failing
queue. -/
theorem controller_runs_all_tasks_witness :
    (∀ t : Task, (fun _ : Task => true) t = true) ∧
    TaskController.runFrom failDownloads (fun _ => true)
        [Task.download "u" "/tmp/a.zip", Task.extract "/tmp/a.zip" "/game"]
      = ([Task.download "u" "/tmp/a.zip", Task.extract "/tmp/a.zip" "/game"], true) :=
  ⟨fun _ => rfl,
    controller_runs_all_tasks failDownloads (fun _ => true) (fun _ => rfl)
      [Task.download "u" "/tmp/a.zip", Task.extract "/tmp/a.zip" "/game"]⟩

/-- Claim C3 (idempotence): after a first run of the update operation
(fully successful, with the configured module names pairwise distinct as
Python dict keys are), a second run in the same environment builds an
empty plan — every module's ledger-recorded URL equals the resolver's
URL, so every module is skipped and zero download tasks are performed. -/
theorem second_run_performs_no_tasks (env : RunEnv) (s : AppState)
    (hkeys : (env.apiMapping.map Prod.fst).Nodup)
    (hsuccess : ∀ t, env.outcome t = true) :
    (buildPlan env.resolve env.tmpdir env.gamePath
        (installRun env false s).historyData env.apiMapping).1 = [] := by
  have _hs := hsuccess
  rw [installRun_historyData]
  have hb := buildPlan_skip env.resolve env.tmpdir env.gamePath env.apiMapping
      (buildPlan env.resolve env.tmpdir env.gamePath s.historyData env.apiMapping).2
      (fun np hnp u hu =>
        buildPlan_lookup_mem env.resolve env.tmpdir env.gamePath env.apiMapping
          s.historyData np.1 np.2 u hkeys hnp hu)
  rw [hb]

/-- Claim C3, witness at a concrete two-module environment. -/
theorem second_run_performs_no_tasks_witness :
    ((envTwoModulesOk.apiMapping.map Prod.fst).Nodup ∧
      ∀ t, envTwoModulesOk.outcome t = true) ∧
    (buildPlan envTwoModulesOk.resolve envTwoModulesOk.tmpdir envTwoModulesOk.gamePath
        (installRun envTwoModulesOk false state0).historyData envTwoModulesOk.apiMapping).1
      = [] :=
  ⟨⟨by decide, fun _ => rfl⟩,
    second_run_performs_no_tasks envTwoModulesOk state0 (by decide) (fun _ => rfl)⟩

/-- Claim C4, counterexample: extraction of a 3-entry archive raises on
entry 1; the worker prints the error, yet the `finally` block still
deletes the archive and emits the normal `finished` signal — the archive
is not left on disk and no `ExtractFailed` failure is reported. -/
theorem archive_deleted_on_extract_error :
    (ExtractWorker.run 3 true true (some 1)).errorPrinted = true ∧
    (ExtractWorker.run 3 true true (some 1)).archiveDeleted = true ∧
    (ExtractWorker.run 3 true true (some 1)).finishedEmitted = true := by
  decide

/-- Claim C4, amended: for every execution of the extract worker whose
archive file exists, the archive is deleted and the terminal `finished`
signal is emitted — on success and on any entry-extraction or
archive-open error alike; errors are printed and swallowed, and no
`ExtractFailed` failure outcome exists. -/
theorem extract_finally_deletes_and_finishes (n : Nat) (openOk : Bool) (failAt : Option Nat) :
    (ExtractWorker.run n true openOk failAt).archiveDeleted = true ∧
    (ExtractWorker.run n true openOk failAt).finishedEmitted = true :=
  ⟨extractRun_deleted_of_onDisk n openOk failAt,
   extractRun_finished_of_onDisk n openOk failAt⟩

/-- Claim C5 (order preservation): every plan built by
`_start_installation` is a flat sequence of download/extract pairs in
module order, each extract consuming exactly its download's destination
and outputting to the game directory; the controller executes exactly
that list in order; and for three modules A, B, C all needing updates
the plan is exactly
[Download(A), Extract(A), Download(B), Extract(B), Download(C), Extract(C)]. -/
theorem plan_order_preserved (r : String → String → Option String)
    (tmp g : String) (hist m : List (String × String))
    (outcome archiveOn : Task → Bool) (harch : ∀ t, archiveOn t = true) :
    pairedWith g (buildPlan r tmp g hist m).1 = true ∧
    TaskController.runFrom outcome archiveOn (buildPlan r tmp g hist m).1
      = ((buildPlan r tmp g hist m).1, true) ∧
    (buildPlan (fun n _ => some ("https://x/" ++ n ++ ".zip")) "/tmp" "/game" []
        [("A", "pa"), ("B", "pb"), ("C", "pc")]).1 =
      [Task.download "https://x/A.zip" "/tmp/limbus_A.zip",
       Task.extract "/tmp/limbus_A.zip" "/game",
       Task.download "https://x/B.zip" "/tmp/limbus_B.zip",
       Task.extract "/tmp/limbus_B.zip" "/game",
       Task.download "https://x/C.zip" "/tmp/limbus_C.zip",
       Task.extract "/tmp/limbus_C.zip" "/game"] :=
  ⟨buildPlan_paired r tmp g m hist, runFrom_all outcome archiveOn harch _, by decide⟩

/-- Claim C5, witness at a concrete environment. -/
theorem plan_order_preserved_witness :
    (∀ t : Task, (fun _ : Task => true) t = true) ∧
    pairedWith "/game"
        (buildPlan envTwoModulesOk.resolve "/tmp" "/game" [] envTwoModulesOk.apiMapping).1
      = true ∧
    TaskController.runFrom failDownloads (fun _ => true)
        (buildPlan envTwoModulesOk.resolve "/tmp" "/game" [] envTwoModulesOk.apiMapping).1
      = ((buildPlan envTwoModulesOk.resolve "/tmp" "/game" [] envTwoModulesOk.apiMapping).1,
         true) :=
  ⟨fun _ => rfl,
    (plan_order_preserved envTwoModulesOk.resolve "/tmp" "/game" [] envTwoModulesOk.apiMapping
        failDownloads (fun _ => true) (fun _ => rfl)).1,
    (plan_order_preserved envTwoModulesOk.resolve "/tmp" "/game" [] envTwoModulesOk.apiMapping
        failDownloads (fun _ => true) (fun _ => rfl)).2.1⟩

/-- Claim C6: `re.match`-at-start resolution on the spec's concrete
example.  For asset URLs
`["https://x/BepInEx-Unity.IL2CPP-win-x64-6.0.zip", "https://x/other.zip"]`
and pattern `https.*BepInEx-Unity\.IL2CPP-win-x64-6.*\.zip`, resolution
returns the first URL only; the pattern semantics are anchored at the
start but free at the end (a proper-prefix match succeeds, a match that
would only start mid-string fails). -/
theorem resolution_anchored_start_example :
    getDownloadUrl "https.*BepInEx-Unity\\.IL2CPP-win-x64-6.*\\.zip"
        [["https://x/BepInEx-Unity.IL2CPP-win-x64-6.0.zip", "https://x/other.zip"]]
      = some "https://x/BepInEx-Unity.IL2CPP-win-x64-6.0.zip" ∧
    pyMatch "https.*BepInEx-Unity\\.IL2CPP-win-x64-6.*\\.zip"
        "https://x/BepInEx-Unity.IL2CPP-win-x64-6.0.zip" = true ∧
    pyMatch "https.*BepInEx-Unity\\.IL2CPP-win-x64-6.*\\.zip" "https://x/other.zip" = false ∧
    pyMatch "https" "https://x/other.zip" = true ∧
    pyMatch "x/other" "https://x/other.zip" = false := by
  decide

/-- Claim C7 (progress monotonicity): within any single download or
extract task the successive progress emissions are non-decreasing; when
the download's content length is known and fully delivered, or the
archive's entry count is positive and extraction completes, the final
emission before the `finished` signal is 100; and a download with no
server-supplied content length emits no intermediate progress. -/
theorem progress_monotone (T n : Nat) (chunks : List Nat)
    (hT : 0 < T) (hsum : chunks.sum = T) (hn : 0 < n) :
    (∀ (X : Nat) (cs : List Nat) (ok : Bool),
        List.Pairwise (· ≤ ·) (DownloadWorker.run X cs ok).emits) ∧
    (DownloadWorker.run T chunks true).emits.getLast? = some 100 ∧
    (∀ (cs : List Nat) (ok : Bool), (DownloadWorker.run 0 cs ok).emits = []) ∧
    (∀ (k : Nat) (openOk : Bool) (failAt : Option Nat),
        List.Pairwise (· ≤ ·) (ExtractWorker.run k true openOk failAt).emits) ∧
    (ExtractWorker.run n true true none).emits.getLast? = some 100 := by
  refine ⟨?_, ?_, ?_, ?_, ?_⟩
  · intro X cs ok
    exact downloadEmits_sorted X cs 0
  · exact downloadEmits_last T hT chunks 0 (by omega) (by omega)
  · intro cs ok
    exact downloadEmits_zeroTotal cs 0
  · intro k openOk failAt
    cases openOk with
    | false => simp [ExtractWorker.run]
    | true =>
      cases failAt with
      | none => simpa [ExtractWorker.run] using extractEmits_sorted k k
      | some j =>
        by_cases hj : j < k
        · simpa [ExtractWorker.run, hj] using extractEmits_sorted k j
        · simpa [ExtractWorker.run, hj] using extractEmits_sorted k k
  · exact extractEmits_last n hn

/-- Claim C7, witness at a concrete download (total 4, chunks [1,2,1])
and a concrete 2-entry archive. -/
theorem progress_monotone_witness :
    (0 < 4 ∧ [1, 2, 1].sum = 4 ∧ 0 < 2) ∧
    (DownloadWorker.run 4 [1, 2, 1] true).emits.getLast? = some 100 ∧
    (ExtractWorker.run 2 true true none).emits.getLast? = some 100 :=
  ⟨⟨by decide, by decide, by decide⟩,
    (progress_monotone 4 2 [1, 2, 1] (by decide) (by decide) (by decide)).2.1,
    (progress_monotone 4 2 [1, 2, 1] (by decide) (by decide) (by decide)).2.2.2.2⟩

/-- Claim C8, counterexample: `save()` opens the ledger file with mode
`"w"`, truncating it in place before `json.dump` writes the new
mapping; a reader during the save can observe the empty truncated file,
which is neither the old nor the new content — the write is not
atomic. -/
theorem save_not_atomic_example :
    ¬ atomicSave (HistoryManager.saveStates "old-ledger" "new-ledger")
        "old-ledger" "new-ledger" := by
  intro h
  rcases h "" (by decide) with h1 | h1
  · exact absurd h1 (by decide)
  · exact absurd h1 (by decide)

/-- Claim C8, amended: `save()` propagates an error when the storage
cannot be opened for writing, and otherwise writes the mapping by
truncating the ledger file in place and then writing the new serialized
content; the write is not atomic — the truncated empty intermediate
state is observable, and for non-empty old and new contents it is
neither of them. -/
theorem save_truncate_then_write (oldC newC : String) (hold : oldC ≠ "") (hnew : newC ≠ "") :
    HistoryManager.save false oldC newC = none ∧
    HistoryManager.save true oldC newC = some (HistoryManager.saveStates oldC newC) ∧
    "" ∈ HistoryManager.saveStates oldC newC ∧
    ¬ atomicSave (HistoryManager.saveStates oldC newC) oldC newC := by
  refine ⟨rfl, rfl, by simp [HistoryManager.saveStates], ?_⟩
  intro h
  rcases h "" (by simp [HistoryManager.saveStates]) with h1 | h1
  · exact hold h1.symm
  · exact hnew h1.symm

/-- Claim C8, witness for the amended theorem at concrete contents. -/
theorem save_truncate_then_write_witness :
    ("old-ledger" ≠ "" ∧ "new-ledger" ≠ "") ∧
    (HistoryManager.save false "old-ledger" "new-ledger" = none ∧
     HistoryManager.save true "old-ledger" "new-ledger"
        = some (HistoryManager.saveStates "old-ledger" "new-ledger") ∧
     "" ∈ HistoryManager.saveStates "old-ledger" "new-ledger" ∧
     ¬ atomicSave (HistoryManager.saveStates "old-ledger" "new-ledger")
         "old-ledger" "new-ledger") :=
  ⟨⟨by decide, by decide⟩,
    save_truncate_then_write "old-ledger" "new-ledger" (by decide) (by decide)⟩

/-- Claim C9 (process guard): whenever the game process appears in the
`tasklist` output, each of the three state-changing entry points —
update, reinstall, remove — only appends the warning log line and
changes nothing else: no task started, no path removed, no in-memory or
on-disk ledger mutation. -/
theorem guard_blocks_when_game_running (env : RunEnv) (s : AppState)
    (h : gameRunning env.tasklist = true) :
    normal_install env s
      = { s with logs := s.logs ++ ["偵測到遊戲正在運行,請先關閉遊戲再進行操作!"] } ∧
    re_install env s
      = { s with logs := s.logs ++ ["偵測到遊戲正在運行,請先關閉遊戲再進行操作!"] } ∧
    remove_module env s
      = { s with logs := s.logs ++ ["偵測到遊戲正在運行,請先關閉遊戲再進行操作!"] } := by
  refine ⟨?_, ?_, ?_⟩ <;>
    simp [normal_install, re_install, remove_module, requireGameStoping, h]

/-- Claim C9, witness at a concrete `tasklist` output containing the
game process. -/
theorem guard_blocks_witness :
    gameRunning envGameRunning.tasklist = true ∧
    (normal_install envGameRunning state0
        = { state0 with
            logs := state0.logs ++ ["偵測到遊戲正在運行,請先關閉遊戲再進行操作!"] } ∧
     re_install envGameRunning state0
        = { state0 with
            logs := state0.logs ++ ["偵測到遊戲正在運行,請先關閉遊戲再進行操作!"] } ∧
     remove_module envGameRunning state0
        = { state0 with
            logs := state0.logs ++ ["偵測到遊戲正在運行,請先關閉遊戲再進行操作!"] }) :=
  ⟨by decide, guard_blocks_when_game_running envGameRunning state0 (by decide)⟩

/-- Claim C10: extracting an archive with zero entries completes
successfully — the entry loop body (the only place dividing by the
total entry count) never runs, so no error occurs and no progress value
is emitted; the `finally` block emits the terminal `finished` signal. -/
theorem extract_empty_archive_completes :
    (ExtractWorker.run 0 true true none).emits = [] ∧
    (ExtractWorker.run 0 true true none).extracted = 0 ∧
    (ExtractWorker.run 0 true true none).errorPrinted = false ∧
    (ExtractWorker.run 0 true true none).finishedEmitted = true := by
  decide

end MAD
